import Mathlib

/-!
Shallow embedding of the rustos kernel core (src/ipc.rs, src/process.rs,
src/fs.rs, src/syscall.rs, src/memory.rs) and proofs about it.

Modelling conventions:
* `u8` bytes, `u32`/`u64`/`usize` values are modelled as `Nat`; `i32` values
  (file descriptors, open flags at the syscall boundary) are modelled as `Int`
  or as their 32-bit patterns where bit operations occur.  None of the
  counters involved in the claims can reach their machine bounds in the
  modelled executions, except where explicitly noted.
* `BTreeMap` tables are modelled as function maps `k -> Option v`.
* Rust mutation is explicit state passing; fallible operations return
  `Except String` carrying the source's error strings.
-/

namespace RustOS

/-! ## Pipes (src/ipc.rs) -/

def PIPE_BUFFER_SIZE : Nat := 4096

structure Pipe where
  id : Nat
  buffer : List Nat
  read_closed : Bool
  write_closed : Bool
  readers : Nat
  writers : Nat
deriving DecidableEq

namespace Pipe

def new (id : Nat) : Pipe :=
  { id := id, buffer := [], read_closed := false, write_closed := false,
    readers := 0, writers := 0 }

/-- `Pipe::read`.  The destination buffer enters only through its length;
the returned list is the bytes copied out. -/
def read (p : Pipe) (bufLen : Nat) : Except String (List Nat × Pipe) :=
  if p.read_closed then
    .error "Pipe read end closed"
  else
    let bytes_to_read := min bufLen p.buffer.length
    if bytes_to_read = 0 then
      if p.writers = 0 then
        .ok ([], p)
      else
        .error "Would block"
    else
      .ok (p.buffer.take bytes_to_read, { p with buffer := p.buffer.drop bytes_to_read })

/-- `Pipe::write`: returns the number of bytes copied in. -/
def write (p : Pipe) (buf : List Nat) : Except String (Nat × Pipe) :=
  if p.write_closed then
    .error "Pipe write end closed"
  else if p.readers = 0 then
    .error "Broken pipe"
  else
    let available_space := PIPE_BUFFER_SIZE - p.buffer.length
    if available_space = 0 then
      .error "Would block"
    else
      let bytes_to_write := min buf.length available_space
      .ok (bytes_to_write, { p with buffer := p.buffer ++ buf.take bytes_to_write })

def close_read (p : Pipe) : Pipe :=
  { p with read_closed := true,
           readers := if p.readers > 0 then p.readers - 1 else p.readers }

def close_write (p : Pipe) : Pipe :=
  { p with write_closed := true,
           writers := if p.writers > 0 then p.writers - 1 else p.writers }

def add_reader (p : Pipe) : Pipe := { p with readers := p.readers + 1 }

def add_writer (p : Pipe) : Pipe := { p with writers := p.writers + 1 }

end Pipe

/-- A pipe exactly as minted by `IPCManager::create_pipe`:
`Pipe::new` followed by `add_reader` and `add_writer`. -/
def freshPipe (id : Nat) : Pipe := ((Pipe.new id).add_reader).add_writer

structure IPCManager where
  pipes : Nat → Option Pipe
  next_pipe_id : Nat

namespace IPCManager

def new : IPCManager := { pipes := fun _ => none, next_pipe_id := 1 }

def read_pipe (m : IPCManager) (pipe_id : Nat) (bufLen : Nat) :
    Except String (List Nat × IPCManager) :=
  match m.pipes pipe_id with
  | none => .error "Invalid pipe"
  | some p =>
    match p.read bufLen with
    | .error e => .error e
    | .ok (bs, p') =>
      .ok (bs, { m with pipes := fun k => if k = pipe_id then some p' else m.pipes k })

def write_pipe (m : IPCManager) (pipe_id : Nat) (buf : List Nat) :
    Except String (Nat × IPCManager) :=
  match m.pipes pipe_id with
  | none => .error "Invalid pipe"
  | some p =>
    match p.write buf with
    | .error e => .error e
    | .ok (n, p') =>
      .ok (n, { m with pipes := fun k => if k = pipe_id then some p' else m.pipes k })

def close_pipe_read (m : IPCManager) (pipe_id : Nat) : Except String IPCManager :=
  match m.pipes pipe_id with
  | none => .error "Invalid pipe"
  | some p =>
    let p' := p.close_read
    if p'.read_closed ∧ p'.write_closed then
      .ok { m with pipes := fun k => if k = pipe_id then none else m.pipes k }
    else
      .ok { m with pipes := fun k => if k = pipe_id then some p' else m.pipes k }

def close_pipe_write (m : IPCManager) (pipe_id : Nat) : Except String IPCManager :=
  match m.pipes pipe_id with
  | none => .error "Invalid pipe"
  | some p =>
    let p' := p.close_write
    if p'.read_closed ∧ p'.write_closed then
      .ok { m with pipes := fun k => if k = pipe_id then none else m.pipes k }
    else
      .ok { m with pipes := fun k => if k = pipe_id then some p' else m.pipes k }

end IPCManager

/-! Sequencing of pipe writes and reads for the FIFO property.  A failing
call leaves the pipe untouched (the source returns before any mutation). -/

def runWrites : List (List Nat) → Pipe → Pipe
  | [], p => p
  | w :: ws, p =>
    match p.write w with
    | .ok (_, p') => runWrites ws p'
    | .error _ => runWrites ws p

/-- Every write's size is at most the remaining capacity at the time of
the call. -/
def writesOK : List (List Nat) → Pipe → Bool
  | [], _ => true
  | w :: ws, p =>
    decide (w.length ≤ PIPE_BUFFER_SIZE - p.buffer.length) &&
      (match p.write w with
       | .ok (_, p') => writesOK ws p'
       | .error _ => writesOK ws p)

/-- Run a sequence of reads (given by destination-buffer lengths), collecting
all bytes returned by the successful ones. -/
def runReads : List Nat → Pipe → List Nat × Pipe
  | [], p => ([], p)
  | k :: ks, p =>
    match p.read k with
    | .ok (bs, p') =>
      let r := runReads ks p'
      (bs ++ r.1, r.2)
    | .error _ => runReads ks p

/-- Close the read end and then the write end of a registry pipe, keeping the
registry state across a failing call. -/
def closeBothRW (m : IPCManager) (pid : Nat) : IPCManager :=
  let m1 := match m.close_pipe_read pid with | .ok m' => m' | .error _ => m
  match m1.close_pipe_write pid with | .ok m' => m' | .error _ => m1

/-- Close the write end and then the read end of a registry pipe. -/
def closeBothWR (m : IPCManager) (pid : Nat) : IPCManager :=
  let m1 := match m.close_pipe_write pid with | .ok m' => m' | .error _ => m
  match m1.close_pipe_read pid with | .ok m' => m' | .error _ => m1

/-! ### Pipe lemmas -/

theorem Pipe.read_ok_append {p : Pipe} {k : Nat} {bs : List Nat} {p' : Pipe}
    (h : p.read k = .ok (bs, p')) : bs ++ p'.buffer = p.buffer := by
  unfold Pipe.read at h
  by_cases hrc : p.read_closed = true
  · simp [hrc] at h
  · by_cases hz : min k p.buffer.length = 0
    · by_cases hw : p.writers = 0
      · simp [hrc, hz, hw] at h
        obtain ⟨rfl, rfl⟩ := h
        simp
      · simp [hrc, hz, hw] at h
    · simp [hrc, hz] at h
      obtain ⟨rfl, rfl⟩ := h
      simp [List.take_append_drop]

/-- Every byte returned by some read in the sequence was in the pipe buffer,
each buffered byte is delivered at most once, and delivery is in FIFO order:
the reads' output concatenation followed by the leftover buffer is exactly
the starting buffer. -/
theorem runReads_acc (ks : List Nat) (p : Pipe) :
    (runReads ks p).1 ++ ((runReads ks p).2).buffer = p.buffer := by
  induction ks generalizing p with
  | nil => simp [runReads]
  | cons k ks ih =>
    unfold runReads
    cases h : p.read k with
    | error e => exact ih p
    | ok v =>
      obtain ⟨bs, p'⟩ := v
      have hb := Pipe.read_ok_append h
      simp only []
      rw [List.append_assoc, ih p', hb]

theorem Pipe.write_ok_char {p : Pipe} {w : List Nat} {n : Nat} {p' : Pipe}
    (hwc : p.write_closed = false) (hr : p.readers ≠ 0)
    (hlen : w.length ≤ PIPE_BUFFER_SIZE - p.buffer.length)
    (h : p.write w = .ok (n, p')) : p' = { p with buffer := p.buffer ++ w } := by
  unfold Pipe.write at h
  by_cases hz : PIPE_BUFFER_SIZE - p.buffer.length = 0
  · simp [hwc, hr, hz] at h
  · simp [hwc, hr, hz] at h
    obtain ⟨-, rfl⟩ := h
    have hm : min w.length (PIPE_BUFFER_SIZE - p.buffer.length) = w.length :=
      Nat.min_eq_left hlen
    simp [hm, hwc]

theorem Pipe.write_err_nil {p : Pipe} {w : List Nat} {e : String}
    (hwc : p.write_closed = false) (hr : p.readers ≠ 0)
    (hlen : w.length ≤ PIPE_BUFFER_SIZE - p.buffer.length)
    (h : p.write w = .error e) : w = [] := by
  unfold Pipe.write at h
  by_cases hz : PIPE_BUFFER_SIZE - p.buffer.length = 0
  · rw [hz] at hlen
    exact List.eq_nil_of_length_eq_zero (Nat.le_zero.mp hlen)
  · simp [hwc, hr, hz] at h

/-- Writes whose sizes respect the remaining capacity append exactly their
bytes, in order, to the pipe buffer (and touch nothing else). -/
theorem runWrites_buffer (ws : List (List Nat)) (p : Pipe)
    (hwc : p.write_closed = false) (hr : p.readers ≠ 0)
    (hok : writesOK ws p = true) :
    runWrites ws p = { p with buffer := p.buffer ++ ws.flatten } := by
  induction ws generalizing p with
  | nil => simp [runWrites]
  | cons w ws ih =>
    unfold writesOK at hok
    rw [Bool.and_eq_true] at hok
    obtain ⟨h1, h2⟩ := hok
    have hlen := of_decide_eq_true h1
    cases h : p.write w with
    | ok v =>
      obtain ⟨n, p'⟩ := v
      simp only [runWrites, h]
      simp only [h] at h2
      have hp' := Pipe.write_ok_char hwc hr hlen h
      subst hp'
      rw [ih { p with buffer := p.buffer ++ w } hwc hr h2]
      simp [List.append_assoc]
    | error e =>
      simp only [runWrites, h]
      simp only [h] at h2
      have hnil := Pipe.write_err_nil hwc hr hlen h
      subst hnil
      rw [ih _ hwc hr h2]
      simp

theorem take_min_length {α : Type} (l : List α) (k : Nat) :
    l.take (min k l.length) = l.take k := by
  rcases Nat.le_total k l.length with hk | hk
  · rw [Nat.min_eq_left hk]
  · rw [Nat.min_eq_right hk, List.take_length,
        List.take_of_length_le hk]

theorem drop_min_length {α : Type} (l : List α) (k : Nat) :
    l.drop (min k l.length) = l.drop k := by
  rcases Nat.le_total k l.length with hk | hk
  · rw [Nat.min_eq_left hk]
  · rw [Nat.min_eq_right hk, List.drop_length,
        List.drop_of_length_le hk]

/-! ### Claim theorems about pipes -/

/-- C1: for a freshly created pipe, after any sequence of writes each of
size at most the remaining capacity at the time of the call and any
sequence of reads, the concatenation of the bytes returned by the reads
followed by the bytes still buffered equals the concatenation of the bytes
passed to the writes, in write order; in particular, when the reads drain
the pipe the two concatenations are equal, and no byte is delivered to more
than one read call. -/
theorem c1_pipe_fifo (id : Nat) (ws : List (List Nat)) (ks : List Nat)
    (hok : writesOK ws (freshPipe id) = true) :
    (runReads ks (runWrites ws (freshPipe id))).1
        ++ ((runReads ks (runWrites ws (freshPipe id))).2).buffer = ws.flatten ∧
    (((runReads ks (runWrites ws (freshPipe id))).2).buffer = [] →
      (runReads ks (runWrites ws (freshPipe id))).1 = ws.flatten) := by
  have hw : runWrites ws (freshPipe id) = { freshPipe id with buffer := ws.flatten } := by
    have h := runWrites_buffer ws (freshPipe id) rfl
      (Nat.one_ne_zero : (freshPipe id).readers ≠ 0) hok
    simpa [freshPipe, Pipe.new, Pipe.add_reader, Pipe.add_writer] using h
  have hacc := runReads_acc ks (runWrites ws (freshPipe id))
  rw [hw] at hacc
  rw [hw]
  refine ⟨hacc, fun h0 => ?_⟩
  rw [h0, List.append_nil] at hacc
  exact hacc

theorem c1_pipe_fifo_witness :
    (runReads [2, 5] (runWrites [[1, 2], [3]] (freshPipe 1))).1 = [[1, 2], [3]].flatten :=
  (c1_pipe_fifo 1 [[1, 2], [3]] [2, 5] (by decide)).2 (by decide)

/-- C4 counterexample: a read with an empty destination buffer while a byte
is buffered and a writer remains IS an error (`Would block`), contradicting
the claim's final clause that such a read copies zero bytes and is not an
error. -/
theorem c4_counterexample :
    Pipe.read { id := 1, buffer := [42], read_closed := false, write_closed := false,
                readers := 1, writers := 1 } 0 = Except.error "Would block" := by
  rfl

/-- C4 (amended): `Pipe::read` fails with the closed-endpoint error when the
read end is closed; otherwise, when `min(buffer.len(), buffered_bytes)` is
zero — that is, when no bytes are buffered or the destination buffer is
empty — it returns 0 bytes (end-of-stream) if no writers remain and fails
with the would-block error otherwise (so an empty-destination read while
data is buffered and writers remain is an error); otherwise it copies
exactly `min(buffer.len(), buffered_bytes)` bytes out of the FIFO front and
removes them. -/
theorem c4_pipe_read_amended (p : Pipe) (k : Nat) :
    (p.read_closed = true → p.read k = .error "Pipe read end closed") ∧
    (p.read_closed = false → min k p.buffer.length = 0 → p.writers = 0 →
      p.read k = .ok ([], p)) ∧
    (p.read_closed = false → min k p.buffer.length = 0 → p.writers ≠ 0 →
      p.read k = .error "Would block") ∧
    (p.read_closed = false → min k p.buffer.length ≠ 0 →
      p.read k = .ok (p.buffer.take k, { p with buffer := p.buffer.drop k })) := by
  refine ⟨fun hrc => ?_, fun hrc hz hw => ?_, fun hrc hz hw => ?_, fun hrc hz => ?_⟩
  · simp [Pipe.read, hrc]
  · simp [Pipe.read, hrc, hz, hw]
  · simp [Pipe.read, hrc, hz, hw]
  · simp [Pipe.read, hrc, hz, take_min_length, drop_min_length]

theorem c4_pipe_read_amended_witness :
    (Pipe.read ⟨1, [7, 8], false, false, 1, 1⟩ 1 = .ok ([7], ⟨1, [8], false, false, 1, 1⟩)) ∧
    (Pipe.read ⟨1, [], false, false, 1, 0⟩ 5 = .ok ([], ⟨1, [], false, false, 1, 0⟩)) ∧
    (Pipe.read ⟨1, [42], false, false, 1, 1⟩ 0 = .error "Would block") ∧
    (Pipe.read ⟨1, [], true, false, 1, 1⟩ 3 = .error "Pipe read end closed") :=
  ⟨(c4_pipe_read_amended ⟨1, [7, 8], false, false, 1, 1⟩ 1).2.2.2 rfl (by decide),
   (c4_pipe_read_amended ⟨1, [], false, false, 1, 0⟩ 5).2.1 rfl (by decide) rfl,
   (c4_pipe_read_amended ⟨1, [42], false, false, 1, 1⟩ 0).2.2.1 rfl (by decide) (by decide),
   (c4_pipe_read_amended ⟨1, [], true, false, 1, 1⟩ 3).1 rfl⟩

/-- C8: once `close_pipe_read` and `close_pipe_write` have each been called
once on a registry pipe, in either order, the pipe's entry is removed from
the registry, and every subsequent `read_pipe` or `write_pipe` on that pipe
id fails with the `Invalid pipe` (not-found) error. -/
theorem c8_close_both_removes (m : IPCManager) (pid : Nat) (p : Pipe)
    (h : m.pipes pid = some p) :
    ((closeBothRW m pid).pipes pid = none ∧
      (∀ k, (closeBothRW m pid).read_pipe pid k = .error "Invalid pipe") ∧
      (∀ buf, (closeBothRW m pid).write_pipe pid buf = .error "Invalid pipe")) ∧
    ((closeBothWR m pid).pipes pid = none ∧
      (∀ k, (closeBothWR m pid).read_pipe pid k = .error "Invalid pipe") ∧
      (∀ buf, (closeBothWR m pid).write_pipe pid buf = .error "Invalid pipe")) := by
  have hrw : (closeBothRW m pid).pipes pid = none := by
    by_cases hw : p.write_closed = true
    · simp [closeBothRW, IPCManager.close_pipe_read, IPCManager.close_pipe_write,
            Pipe.close_read, Pipe.close_write, h, hw]
    · simp [closeBothRW, IPCManager.close_pipe_read, IPCManager.close_pipe_write,
            Pipe.close_read, Pipe.close_write, h, hw]
  have hwr : (closeBothWR m pid).pipes pid = none := by
    by_cases hr : p.read_closed = true
    · simp [closeBothWR, IPCManager.close_pipe_read, IPCManager.close_pipe_write,
            Pipe.close_read, Pipe.close_write, h, hr]
    · simp [closeBothWR, IPCManager.close_pipe_read, IPCManager.close_pipe_write,
            Pipe.close_read, Pipe.close_write, h, hr]
  refine ⟨⟨hrw, fun k => ?_, fun buf => ?_⟩, ⟨hwr, fun k => ?_, fun buf => ?_⟩⟩ <;>
    simp [IPCManager.read_pipe, IPCManager.write_pipe, hrw, hwr]

theorem c8_close_both_removes_witness :
    (closeBothRW { pipes := fun k => if k = 5 then some (freshPipe 5) else none,
                   next_pipe_id := 6 } 5).pipes 5 = none :=
  ((c8_close_both_removes
      { pipes := fun k => if k = 5 then some (freshPipe 5) else none, next_pipe_id := 6 }
      5 (freshPipe 5) rfl).1).1

/-! ## Processes and the scheduler (src/process.rs) -/

inductive ProcessState where
  | Ready
  | Running
  | Blocked
  | Terminated
deriving DecidableEq

/-- A memory region descriptor: start, size, permission bits. -/
structure MemoryRegion where
  start : Nat
  size : Nat
  permissions : Nat
deriving DecidableEq

structure Process where
  pid : Nat
  state : ProcessState
  priority : Nat
  stack_pointer : Nat
  page_table : Nat
  registers : List Nat
  entry_point : Nat
  memory_regions : List MemoryRegion
deriving DecidableEq

structure ProcessManager where
  processes : List Process
  ready_queue : List Nat
  current_pid : Option Nat
  next_pid : Nat
  /-- Models the `static mut NEXT_ADDR` bump pointer inside `allocate_memory`. -/
  alloc_next_addr : Nat
deriving DecidableEq

/-- Helper for `nextPowerOfTwo`: double `power` until it reaches `n`.  The
fuel argument only makes the recursion structural; doubling from 1 reaches
`n` within `n` steps. -/
def nptGo : Nat → Nat → Nat → Nat
  | 0, _, power => power
  | fuel + 1, n, power => if power < n then nptGo fuel n (power * 2) else power

/-- Rust `u64::next_power_of_two` (on the values reachable here): the least
power of two at least `n`, with `0` and `1` both mapping to `1`. -/
def nextPowerOfTwo (n : Nat) : Nat := nptGo n n 1

namespace ProcessManager

def new : ProcessManager :=
  { processes := [], ready_queue := [], current_pid := none, next_pid := 1,
    alloc_next_addr := 0x50000000 }

/-- `allocate_memory`: a bump allocator; always succeeds. -/
def allocate_memory (s : ProcessManager) (size : Nat) : Nat × ProcessManager :=
  (s.alloc_next_addr, { s with alloc_next_addr := s.alloc_next_addr + nextPowerOfTwo size })

def create_page_table (s : ProcessManager) : Nat × ProcessManager :=
  s.allocate_memory 4096

/-- `create_process`.  The source returns `Result` but neither allocation can
fail, so the embedding returns the pid directly. -/
def create_process (s : ProcessManager) (entry_point stack_size : Nat) :
    Nat × ProcessManager :=
  let pid := s.next_pid
  let s := { s with next_pid := s.next_pid + 1 }
  let a := s.allocate_memory stack_size
  let stack_start := a.1
  let s := a.2
  let stack_pointer := stack_start + stack_size
  let b := s.create_page_table
  let page_table := b.1
  let s := b.2
  let process : Process :=
    { pid := pid, state := .Ready, priority := 128, stack_pointer := stack_pointer,
      page_table := page_table, registers := List.replicate 31 0,
      entry_point := entry_point, memory_regions := [] }
  (pid, { s with processes := s.processes ++ [process],
                 ready_queue := s.ready_queue ++ [pid] })

def get_process (s : ProcessManager) (pid : Nat) : Option Process :=
  s.processes.find? (fun p => p.pid == pid)

/-- `get_process_mut(pid)` followed by a mutation `f` of the found process:
replace the first process with the given pid. -/
def updFirst (pid : Nat) (f : Process → Process) : List Process → List Process
  | [] => []
  | p :: rest => if p.pid = pid then f p :: rest else p :: updFirst pid f rest

/-- The first block of `schedule`: mark the current process as Ready if it is
still Running and append it to the back of the ready queue.  Operates on the
state after the front of the queue has been popped. -/
def demote_current (s : ProcessManager) : ProcessManager :=
  match s.current_pid with
  | some c =>
    match s.processes.find? (fun p => p.pid == c) with
    | some cp =>
      if cp.state = .Running then
        { s with
          processes := updFirst c (fun p => { p with state := .Ready }) s.processes,
          ready_queue := s.ready_queue ++ [c] }
      else s
    | none => s
  | none => s

def schedule (s : ProcessManager) : Option Nat × ProcessManager :=
  match s.ready_queue with
  | [] => (s.current_pid, s)
  | next_pid :: rest =>
    let s2 := demote_current { s with ready_queue := rest }
    match s2.processes.find? (fun p => p.pid == next_pid) with
    | some _ =>
      (some next_pid,
        { s2 with
          processes := updFirst next_pid (fun p => { p with state := .Running }) s2.processes,
          current_pid := some next_pid })
    | none => (s2.current_pid, s2)

def terminate_process (s : ProcessManager) (pid : Nat) : Except String ProcessManager :=
  match s.processes.find? (fun p => p.pid == pid) with
  | some _ =>
    let s : ProcessManager :=
      { s with processes := updFirst pid (fun p => { p with state := .Terminated }) s.processes }
    let s : ProcessManager := { s with ready_queue := s.ready_queue.filter (fun q => q ≠ pid) }
    let s : ProcessManager :=
      if s.current_pid = some pid then { s with current_pid := none } else s
    .ok s
  | none => .error "Process not found"

def sys_exec (s : ProcessManager) (entry_point : Nat) : Except String ProcessManager :=
  match s.current_pid with
  | some c =>
    match s.processes.find? (fun p => p.pid == c) with
    | some _ =>
      .ok { s with
            processes := updFirst c
              (fun p => { p with entry_point := entry_point,
                                 registers := List.replicate 31 0 }) s.processes }
    | none => .error "Current process not found"
  | none => .error "No current process"

end ProcessManager

/-- The process-table operations reachable through the public interface. -/
inductive KOp where
  | create (entry_point stack_size : Nat)
  | sched
  | term (pid : Nat)
  | exec (entry_point : Nat)

/-- Run a sequence of operations from a state, collecting the pids returned
by the `create_process` calls; a failing call leaves the state unchanged. -/
def runTrace : List KOp → ProcessManager → ProcessManager × List Nat
  | [], s => (s, [])
  | .create e sz :: ops, s =>
    let c := s.create_process e sz
    let r := runTrace ops c.2
    (r.1, c.1 :: r.2)
  | .sched :: ops, s => runTrace ops (s.schedule).2
  | .term pid :: ops, s =>
    runTrace ops (match s.terminate_process pid with | .ok s' => s' | .error _ => s)
  | .exec e :: ops, s =>
    runTrace ops (match s.sys_exec e with | .ok s' => s' | .error _ => s)

/-- Fold `create_process` over a list of (entry point, stack size) pairs. -/
def createMany (params : List (Nat × Nat)) (s : ProcessManager) : ProcessManager :=
  params.foldl (fun s pr => (s.create_process pr.1 pr.2).2) s

/-- Call `schedule` `k` times, collecting the returned pids. -/
def schedSeq : Nat → ProcessManager → List (Option Nat) × ProcessManager
  | 0, s => ([], s)
  | k + 1, s =>
    let r := s.schedule
    let rest := schedSeq k r.2
    (r.1 :: rest.1, rest.2)

/-- The state of the first process with the given pid, as `get_process` sees it. -/
def stateOf (s : ProcessManager) (x : Nat) : Option ProcessState :=
  (s.processes.find? (fun p => p.pid == x)).map Process.state

/-! ### updFirst / find? lemmas -/

namespace ProcessManager

theorem updFirst_map_pid {x : Nat} {f : Process → Process}
    (hf : ∀ p, (f p).pid = p.pid) :
    ∀ l : List Process, (updFirst x f l).map Process.pid = l.map Process.pid := by
  intro l
  induction l with
  | nil => rfl
  | cons p rest ih =>
    by_cases hp : p.pid = x
    · simp [updFirst, hp, hf]
    · simp [updFirst, hp, ih]

theorem mem_updFirst {x : Nat} {f : Process → Process} {q : Process} :
    ∀ {l : List Process}, q ∈ updFirst x f l → q ∈ l ∨ ∃ p, p ∈ l ∧ q = f p := by
  intro l
  induction l with
  | nil => intro h; exact absurd h (List.not_mem_nil q)
  | cons p rest ih =>
    intro h
    by_cases hp : p.pid = x
    · rw [updFirst, if_pos hp] at h
      rcases List.mem_cons.mp h with h1 | h1
      · exact Or.inr ⟨p, List.mem_cons_self p rest, h1⟩
      · exact Or.inl (List.mem_cons_of_mem p h1)
    · rw [updFirst, if_neg hp] at h
      rcases List.mem_cons.mp h with h1 | h1
      · exact Or.inl (h1 ▸ List.mem_cons_self p rest)
      · rcases ih h1 with h2 | ⟨r, hr, hq⟩
        · exact Or.inl (List.mem_cons_of_mem p h2)
        · exact Or.inr ⟨r, List.mem_cons_of_mem p hr, hq⟩

/-- Replacing the first process with pid `x` by something that is not Running:
any process still Running afterwards was Running before and has a different pid
(pids are assumed distinct). -/
theorem updFirst_running_of {x : Nat} {f : Process → Process}
    (hfs : ∀ p, (f p).state ≠ .Running) (hfp : ∀ p, (f p).pid = p.pid) :
    ∀ {l : List Process}, (l.map Process.pid).Nodup →
      ∀ q ∈ updFirst x f l, q.state = .Running → q ∈ l ∧ q.pid ≠ x := by
  intro l
  induction l with
  | nil => intro _ q hq; exact absurd hq (List.not_mem_nil q)
  | cons p rest ih =>
    intro hnd q hq hrun
    have hnd' : (rest.map Process.pid).Nodup := (List.nodup_cons.mp (by simpa using hnd)).2
    have hpn : p.pid ∉ rest.map Process.pid := (List.nodup_cons.mp (by simpa using hnd)).1
    by_cases hp : p.pid = x
    · rw [updFirst, if_pos hp] at hq
      rcases List.mem_cons.mp hq with h1 | h1
      · exact absurd (h1 ▸ hrun) (hfs p)
      · refine ⟨List.mem_cons_of_mem p h1, fun hx => ?_⟩
        exact hpn (by simpa [hp, hx] using List.mem_map_of_mem Process.pid h1)
    · rw [updFirst, if_neg hp] at hq
      rcases List.mem_cons.mp hq with h1 | h1
      · exact ⟨h1 ▸ List.mem_cons_self p rest, h1 ▸ hp⟩
      · obtain ⟨h2, h3⟩ := ih hnd' q h1 hrun
        exact ⟨List.mem_cons_of_mem p h2, h3⟩

/-- Promoting pid `x` to Running in a table with no Running process: afterwards
every Running process has pid `x`. -/
theorem updFirst_running_promote {x : Nat} :
    ∀ {l : List Process}, (∀ q ∈ l, q.state ≠ .Running) →
      ∀ q ∈ updFirst x (fun p => { p with state := .Running }) l,
        q.state = .Running → q.pid = x := by
  intro l
  induction l with
  | nil => intro _ q hq; exact absurd hq (List.not_mem_nil q)
  | cons p rest ih =>
    intro hno q hq hrun
    by_cases hp : p.pid = x
    · rw [updFirst, if_pos hp] at hq
      rcases List.mem_cons.mp hq with h1 | h1
      · rw [h1]; exact hp
      · exact absurd hrun (hno q (List.mem_cons_of_mem p h1))
    · rw [updFirst, if_neg hp] at hq
      rcases List.mem_cons.mp hq with h1 | h1
      · exact absurd hrun (hno q (h1 ▸ List.mem_cons_self p rest))
      · exact ih (fun r hr => hno r (List.mem_cons_of_mem p hr)) q h1 hrun

theorem find?_updFirst_same {x : Nat} {f : Process → Process}
    (hfp : ∀ p, (f p).pid = p.pid) :
    ∀ l : List Process,
      (updFirst x f l).find? (fun p => p.pid == x) =
        (l.find? (fun p => p.pid == x)).map f := by
  intro l
  induction l with
  | nil => rfl
  | cons p rest ih =>
    by_cases hp : p.pid = x
    · rw [updFirst, if_pos hp]
      rw [List.find?_cons_of_pos _ (by simp [hfp, hp]),
          List.find?_cons_of_pos _ (by simp [hp])]
      rfl
    · rw [updFirst, if_neg hp]
      rw [List.find?_cons_of_neg _ (by simp [hp]),
          List.find?_cons_of_neg _ (by simp [hp])]
      exact ih

theorem find?_updFirst_ne {x y : Nat} {f : Process → Process}
    (hfp : ∀ p, (f p).pid = p.pid) (hxy : y ≠ x) :
    ∀ l : List Process,
      (updFirst x f l).find? (fun p => p.pid == y) =
        l.find? (fun p => p.pid == y) := by
  intro l
  induction l with
  | nil => rfl
  | cons p rest ih =>
    by_cases hp : p.pid = x
    · rw [updFirst, if_pos hp]
      rw [List.find?_cons_of_neg _ (by simp [hfp, hp]; exact fun h => hxy h.symm),
          List.find?_cons_of_neg _ (by simp [hp]; exact fun h => hxy h.symm)]
    · rw [updFirst, if_neg hp]
      by_cases hpy : p.pid = y
      · rw [List.find?_cons_of_pos _ (by simp [hpy]),
            List.find?_cons_of_pos _ (by simp [hpy])]
      · rw [List.find?_cons_of_neg _ (by simp [hpy]),
            List.find?_cons_of_neg _ (by simp [hpy])]
        exact ih

end ProcessManager

/-! ### The process-table invariant (C5, C6) -/

/-- Invariant maintained by every process-table operation: pids are bounded by
the pid counter, pids are distinct, and a Running process is always the
current one. -/
def pmInv (s : ProcessManager) : Prop :=
  (∀ p ∈ s.processes, p.pid < s.next_pid) ∧
  (s.processes.map Process.pid).Nodup ∧
  (∀ p ∈ s.processes, p.state = .Running → s.current_pid = some p.pid)

theorem pmInv_new : pmInv ProcessManager.new := by
  refine ⟨?_, ?_, ?_⟩ <;> simp [ProcessManager.new]

/-- The process record appended by `create_process`. -/
def createdProcess (s : ProcessManager) (e sz : Nat) : Process :=
  ⟨s.next_pid, .Ready, 128, s.alloc_next_addr + sz,
   s.alloc_next_addr + nextPowerOfTwo sz, List.replicate 31 0, e, []⟩

theorem created_pid (s : ProcessManager) (e sz : Nat) :
    (createdProcess s e sz).pid = s.next_pid := rfl

theorem created_state (s : ProcessManager) (e sz : Nat) :
    (createdProcess s e sz).state = .Ready := rfl

theorem pmInv_create (s : ProcessManager) (e sz : Nat) (h : pmInv s) :
    pmInv (s.create_process e sz).2 := by
  obtain ⟨hb, hnd, hrun⟩ := h
  have hproc : (s.create_process e sz).2.processes
      = s.processes ++ [createdProcess s e sz] := rfl
  have hnext : (s.create_process e sz).2.next_pid = s.next_pid + 1 := rfl
  have hcur : (s.create_process e sz).2.current_pid = s.current_pid := rfl
  refine ⟨?_, ?_, ?_⟩
  · rw [hproc, hnext]
    intro p hp
    rcases List.mem_append.mp hp with h1 | h1
    · exact Nat.lt_succ_of_lt (hb p h1)
    · simp only [List.mem_singleton] at h1
      rw [h1, created_pid]
      exact Nat.lt_succ_self _
  · rw [hproc, List.map_append]
    refine List.Nodup.append hnd (by simp) ?_
    intro x hx hx'
    simp only [List.map_cons, List.map_nil, List.mem_singleton, created_pid] at hx'
    obtain ⟨p, hp, rfl⟩ := List.mem_map.mp hx
    exact absurd hx' (Nat.ne_of_lt (hb p hp))
  · rw [hproc, hcur]
    intro p hp hr
    rcases List.mem_append.mp hp with h1 | h1
    · exact hrun p h1 hr
    · simp only [List.mem_singleton] at h1
      rw [h1, created_state] at hr
      simp at hr

theorem demote_next_pid (s : ProcessManager) :
    (s.demote_current).next_pid = s.next_pid := by
  unfold ProcessManager.demote_current
  repeat' split
  all_goals rfl

theorem demote_current_pid (s : ProcessManager) :
    (s.demote_current).current_pid = s.current_pid := by
  unfold ProcessManager.demote_current
  repeat' split
  all_goals rfl

theorem demote_map_pid (s : ProcessManager) :
    (s.demote_current).processes.map Process.pid = s.processes.map Process.pid := by
  unfold ProcessManager.demote_current
  repeat' split
  all_goals first
  | rfl
  | (dsimp only
     exact ProcessManager.updFirst_map_pid
       (f := fun p => { p with state := .Ready }) (fun p => rfl) s.processes)

/-- After the demote block no process at all is Running. -/
theorem demote_no_running (s : ProcessManager)
    (hnd : (s.processes.map Process.pid).Nodup)
    (hrun : ∀ p ∈ s.processes, p.state = .Running → s.current_pid = some p.pid) :
    ∀ q ∈ (s.demote_current).processes, q.state ≠ .Running := by
  unfold ProcessManager.demote_current
  split
  · rename_i c hc
    split
    · rename_i cp hf
      split
      · rename_i hcp
        intro q hq hrq
        obtain ⟨hmem, hne⟩ := ProcessManager.updFirst_running_of
          (f := fun p => { p with state := .Ready }) (by intro p h; simp at h)
          (fun p => rfl) hnd q hq hrq
        have h1 := hrun q hmem hrq
        rw [hc] at h1
        exact hne ((Option.some.injEq _ _).mp h1).symm
      · rename_i hcp
        intro q hq hrq
        have h1 := hrun q hq hrq
        rw [hc] at h1
        have h2 : q.pid = c := (Option.some.injEq _ _).mp h1.symm
        have h3 : q = cp := by
          refine List.inj_on_of_nodup_map hnd hq (List.mem_of_find?_eq_some hf) ?_
          have h4 := List.find?_some hf
          simp only [beq_iff_eq] at h4
          rw [h2, h4]
        exact hcp (h3 ▸ hrq)
    · rename_i hf
      intro q hq hrq
      have h1 := hrun q hq hrq
      rw [hc] at h1
      have h2 : q.pid = c := (Option.some.injEq _ _).mp h1.symm
      have h3 := List.find?_eq_none.mp hf q hq
      simp [h2] at h3
  · rename_i hc
    intro q hq hrq
    exact Option.noConfusion (hc ▸ hrun q hq hrq)

theorem pmInv_schedule (s : ProcessManager) (h : pmInv s) : pmInv (s.schedule).2 := by
  obtain ⟨hb, hnd, hrun⟩ := h
  unfold ProcessManager.schedule
  split
  · exact ⟨hb, hnd, hrun⟩
  · rename_i nx rest hq
    dsimp only
    have hb1 : ∀ p ∈ ({ s with ready_queue := rest } : ProcessManager).processes,
        p.pid < ({ s with ready_queue := rest } : ProcessManager).next_pid := hb
    have hnd1 : ((({ s with ready_queue := rest } : ProcessManager)).processes.map
        Process.pid).Nodup := hnd
    have hrun1 : ∀ p ∈ ({ s with ready_queue := rest } : ProcessManager).processes,
        p.state = .Running →
          ({ s with ready_queue := rest } : ProcessManager).current_pid = some p.pid := hrun
    set s2 := ({ s with ready_queue := rest } : ProcessManager).demote_current with hs2
    have hmap2 : s2.processes.map Process.pid = s.processes.map Process.pid :=
      demote_map_pid { s with ready_queue := rest }
    have hnd2 : (s2.processes.map Process.pid).Nodup := by rw [hmap2]; exact hnd
    have hb2 : ∀ p ∈ s2.processes, p.pid < s2.next_pid := by
      intro p hp
      have hm : p.pid ∈ s.processes.map Process.pid := by
        rw [← hmap2]; exact List.mem_map_of_mem _ hp
      obtain ⟨p0, hp0, hpe⟩ := List.mem_map.mp hm
      rw [hs2, demote_next_pid { s with ready_queue := rest }, ← hpe]
      exact hb p0 hp0
    have hno2 : ∀ q ∈ s2.processes, q.state ≠ .Running :=
      demote_no_running { s with ready_queue := rest } hnd1 hrun1
    split
    · rename_i p hf
      refine ⟨?_, ?_, ?_⟩
      · intro q hq
        have hm : q.pid ∈ s2.processes.map Process.pid := by
          rw [← ProcessManager.updFirst_map_pid
            (f := fun p => { p with state := .Running }) (fun p => rfl) s2.processes]
          exact List.mem_map_of_mem _ hq
        obtain ⟨p0, hp0, hpe⟩ := List.mem_map.mp hm
        rw [← hpe]
        exact hb2 p0 hp0
      · rw [ProcessManager.updFirst_map_pid
          (f := fun p => { p with state := .Running }) (fun p => rfl)]
        exact hnd2
      · intro q hq hrq
        have := ProcessManager.updFirst_running_promote hno2 q hq hrq
        simp [this]
    · rename_i hf
      exact ⟨hb2, hnd2, fun q hq hrq => absurd hrq (hno2 q hq)⟩

theorem pmInv_term_ok (s : ProcessManager) (pid : Nat) (h : pmInv s)
    {s' : ProcessManager} (hok : s.terminate_process pid = .ok s') : pmInv s' := by
  obtain ⟨hb, hnd, hrun⟩ := h
  unfold ProcessManager.terminate_process at hok
  split at hok
  case h_2 => exact Except.noConfusion hok
  rename_i p0 hf
  dsimp only at hok
  injection hok with hok
  subst hok
  have hmap : ∀ l : List Process,
      (ProcessManager.updFirst pid (fun p => { p with state := .Terminated }) l).map
        Process.pid = l.map Process.pid :=
    ProcessManager.updFirst_map_pid (fun p => rfl)
  have hbound : ∀ q ∈ ProcessManager.updFirst pid
      (fun p => { p with state := .Terminated }) s.processes, q.pid < s.next_pid := by
    intro q hq
    have hm : q.pid ∈ s.processes.map Process.pid := by
      rw [← hmap s.processes]
      exact List.mem_map_of_mem _ hq
    obtain ⟨p1, hp1, hpe⟩ := List.mem_map.mp hm
    rw [← hpe]
    exact hb p1 hp1
  have hnd' : ((ProcessManager.updFirst pid (fun p => { p with state := .Terminated })
      s.processes).map Process.pid).Nodup := by rw [hmap]; exact hnd
  have hqq : ∀ q ∈ ProcessManager.updFirst pid
      (fun p => { p with state := .Terminated }) s.processes,
      q.state = .Running → q ∈ s.processes ∧ q.pid ≠ pid :=
    ProcessManager.updFirst_running_of (x := pid)
      (f := fun p => { p with state := .Terminated })
      (fun p h => ProcessState.noConfusion h) (fun p => rfl) hnd
  split
  · rename_i hcur
    refine ⟨hbound, hnd', ?_⟩
    intro q hmem hrq
    obtain ⟨h1, h2⟩ := hqq q hmem hrq
    have h3 := hrun q h1 hrq
    rw [hcur] at h3
    exact absurd ((Option.some.injEq _ _).mp h3).symm h2
  · rename_i hcur
    refine ⟨hbound, hnd', ?_⟩
    intro q hmem hrq
    obtain ⟨h1, h2⟩ := hqq q hmem hrq
    exact hrun q h1 hrq

theorem pmInv_term (s : ProcessManager) (pid : Nat) (h : pmInv s) :
    pmInv (match s.terminate_process pid with | .ok s' => s' | .error _ => s) := by
  cases hok : s.terminate_process pid with
  | ok s' => exact pmInv_term_ok s pid h hok
  | error e => exact h

theorem pmInv_exec_ok (s : ProcessManager) (e : Nat) (h : pmInv s)
    {s' : ProcessManager} (hok : s.sys_exec e = .ok s') : pmInv s' := by
  obtain ⟨hb, hnd, hrun⟩ := h
  unfold ProcessManager.sys_exec at hok
  split at hok
  case h_2 => exact Except.noConfusion hok
  rename_i c hc
  split at hok
  case h_2 => exact Except.noConfusion hok
  rename_i p0 hf
  injection hok with hok
  subst hok
  have hmap : ∀ l : List Process,
      (ProcessManager.updFirst c
        (fun p => { p with entry_point := e, registers := List.replicate 31 0 }) l).map
        Process.pid = l.map Process.pid :=
    ProcessManager.updFirst_map_pid (fun p => rfl)
  refine ⟨?_, ?_, ?_⟩
  · intro q hmem
    have hm : q.pid ∈ s.processes.map Process.pid := by
      rw [← hmap s.processes]
      exact List.mem_map_of_mem _ hmem
    obtain ⟨p1, hp1, hpe⟩ := List.mem_map.mp hm
    rw [← hpe]
    exact hb p1 hp1
  · rw [hmap]; exact hnd
  · intro q hmem hrq
    rcases ProcessManager.mem_updFirst hmem with h1 | ⟨p1, hp1, rfl⟩
    · exact hrun q h1 hrq
    · exact hrun p1 hp1 hrq

theorem pmInv_exec (s : ProcessManager) (e : Nat) (h : pmInv s) :
    pmInv (match s.sys_exec e with | .ok s' => s' | .error _ => s) := by
  cases hok : s.sys_exec e with
  | ok s' => exact pmInv_exec_ok s e h hok
  | error err => exact h

theorem pmInv_runTrace (ops : List KOp) (s : ProcessManager) (h : pmInv s) :
    pmInv (runTrace ops s).1 := by
  induction ops generalizing s with
  | nil => exact h
  | cons op ops ih =>
    cases op with
    | create e sz => exact ih _ (pmInv_create s e sz h)
    | sched => exact ih _ (pmInv_schedule s h)
    | term pid => exact ih _ (pmInv_term s pid h)
    | exec e => exact ih _ (pmInv_exec s e h)

theorem filter_running_le_one (c : Nat) :
    ∀ l : List Process, (l.map Process.pid).Nodup →
      (∀ q ∈ l, q.state = .Running → q.pid = c) →
      (l.filter (fun p => p.state == ProcessState.Running)).length ≤ 1 := by
  intro l
  induction l with
  | nil => intro _ _; simp
  | cons p rest ih =>
    intro hnd hall
    have hnd' : (rest.map Process.pid).Nodup := (List.nodup_cons.mp (by simpa using hnd)).2
    have hpn : p.pid ∉ rest.map Process.pid := (List.nodup_cons.mp (by simpa using hnd)).1
    by_cases hp : p.state = ProcessState.Running
    · rw [List.filter_cons_of_pos (by simp [hp])]
      have hrest : rest.filter (fun p => p.state == ProcessState.Running) = [] := by
        rw [List.filter_eq_nil_iff]
        intro q hq hqr
        simp only [beq_iff_eq] at hqr
        have h1 : q.pid = c := hall q (List.mem_cons_of_mem p hq) hqr
        have h2 : p.pid = c := hall p (List.mem_cons_self p rest) hp
        exact hpn (by rw [h2, ← h1]; exact List.mem_map_of_mem Process.pid hq)
      simp [hrest]
    · rw [List.filter_cons_of_neg (by simp [hp])]
      exact ih hnd' (fun q hq => hall q (List.mem_cons_of_mem p hq))

/-- C5: in every state reachable from the initial empty process table by any
sequence of `create_process`, `schedule`, `terminate_process` and `sys_exec`
operations, at most one process in the table is in state Running. -/
theorem c5_at_most_one_running (ops : List KOp) :
    ((runTrace ops ProcessManager.new).1.processes.filter
      (fun p => p.state == ProcessState.Running)).length ≤ 1 := by
  obtain ⟨hb, hnd, hrun⟩ := pmInv_runTrace ops ProcessManager.new pmInv_new
  cases hcur : (runTrace ops ProcessManager.new).1.current_pid with
  | none =>
    have hnil : (runTrace ops ProcessManager.new).1.processes.filter
        (fun p => p.state == ProcessState.Running) = [] := by
      rw [List.filter_eq_nil_iff]
      intro q hq hqr
      simp only [beq_iff_eq] at hqr
      have h1 := hrun q hq hqr
      rw [hcur] at h1
      exact Option.noConfusion h1
    simp [hnil]
  | some c =>
    refine filter_running_le_one c _ hnd ?_
    intro q hq hqr
    have h1 := hrun q hq hqr
    rw [hcur] at h1
    exact ((Option.some.injEq _ _).mp h1).symm

/-! ### Monotone pid issuance (C6) -/

theorem runTrace_create (e sz : Nat) (ops : List KOp) (s : ProcessManager) :
    runTrace (.create e sz :: ops) s =
      ((runTrace ops (s.create_process e sz).2).1,
       s.next_pid :: (runTrace ops (s.create_process e sz).2).2) := rfl

theorem runTrace_sched (ops : List KOp) (s : ProcessManager) :
    runTrace (.sched :: ops) s = runTrace ops (s.schedule).2 := rfl

theorem runTrace_term (pid : Nat) (ops : List KOp) (s : ProcessManager) :
    runTrace (.term pid :: ops) s =
      runTrace ops (match s.terminate_process pid with | .ok s' => s' | .error _ => s) := rfl

theorem runTrace_exec (e : Nat) (ops : List KOp) (s : ProcessManager) :
    runTrace (.exec e :: ops) s =
      runTrace ops (match s.sys_exec e with | .ok s' => s' | .error _ => s) := rfl

theorem schedule_next_pid (s : ProcessManager) : (s.schedule).2.next_pid = s.next_pid := by
  unfold ProcessManager.schedule
  split
  · rfl
  · dsimp only
    split
    · exact demote_next_pid _
    · exact demote_next_pid _

theorem terminate_ok_next_pid (s : ProcessManager) (pid : Nat)
    {s' : ProcessManager} (hok : s.terminate_process pid = .ok s') :
    s'.next_pid = s.next_pid := by
  unfold ProcessManager.terminate_process at hok
  split at hok
  case h_2 => exact Except.noConfusion hok
  dsimp only at hok
  injection hok with hok
  subst hok
  split <;> rfl

theorem terminate_next_pid (s : ProcessManager) (pid : Nat) :
    (match s.terminate_process pid with | .ok s' => s' | .error _ => s).next_pid
      = s.next_pid := by
  cases hok : s.terminate_process pid with
  | ok s' => exact terminate_ok_next_pid s pid hok
  | error e => rfl

theorem exec_ok_next_pid (s : ProcessManager) (e : Nat)
    {s' : ProcessManager} (hok : s.sys_exec e = .ok s') : s'.next_pid = s.next_pid := by
  unfold ProcessManager.sys_exec at hok
  split at hok
  case h_2 => exact Except.noConfusion hok
  split at hok
  case h_2 => exact Except.noConfusion hok
  injection hok with hok
  subst hok
  rfl

theorem exec_next_pid (s : ProcessManager) (e : Nat) :
    (match s.sys_exec e with | .ok s' => s' | .error _ => s).next_pid = s.next_pid := by
  cases hok : s.sys_exec e with
  | ok s' => exact exec_ok_next_pid s e hok
  | error err => rfl

theorem trace_pids (ops : List KOp) :
    ∀ s : ProcessManager,
      s.next_pid ≤ (runTrace ops s).1.next_pid ∧
      (∀ x ∈ (runTrace ops s).2, s.next_pid ≤ x ∧ x < (runTrace ops s).1.next_pid) ∧
      List.Pairwise (· < ·) (runTrace ops s).2 := by
  induction ops with
  | nil =>
    intro s
    exact ⟨le_refl _, by simp [runTrace], by simp [runTrace]⟩
  | cons op ops ih =>
    intro s
    cases op with
    | create e sz =>
      rw [runTrace_create]
      obtain ⟨hmono, hbounds, hpw⟩ := ih (s.create_process e sz).2
      refine ⟨le_trans (Nat.le_succ _) hmono, ?_, ?_⟩
      · intro x hx
        simp only [List.mem_cons] at hx
        rcases hx with rfl | hx
        · exact ⟨le_refl _, lt_of_lt_of_le (Nat.lt_succ_self _) hmono⟩
        · obtain ⟨h1, h2⟩ := hbounds x hx
          exact ⟨le_trans (Nat.le_succ _) h1, h2⟩
      · exact List.Pairwise.cons
          (fun x hx => lt_of_lt_of_le (Nat.lt_succ_self _) (hbounds x hx).1) hpw
    | sched =>
      rw [runTrace_sched]
      obtain ⟨hmono, hbounds, hpw⟩ := ih (s.schedule).2
      rw [schedule_next_pid] at hmono hbounds
      exact ⟨hmono, hbounds, hpw⟩
    | term pid =>
      rw [runTrace_term]
      obtain ⟨hmono, hbounds, hpw⟩ :=
        ih (match s.terminate_process pid with | .ok s' => s' | .error _ => s)
      rw [terminate_next_pid] at hmono hbounds
      exact ⟨hmono, hbounds, hpw⟩
    | exec e =>
      rw [runTrace_exec]
      obtain ⟨hmono, hbounds, hpw⟩ :=
        ih (match s.sys_exec e with | .ok s' => s' | .error _ => s)
      rw [exec_next_pid] at hmono hbounds
      exact ⟨hmono, hbounds, hpw⟩

/-- C6: over any sequence of process-table operations starting from the
initial state, the pids returned by the `create_process` calls are strictly
increasing, and no pid is ever issued twice. -/
theorem c6_create_pids_monotone (ops : List KOp) :
    List.Pairwise (· < ·) (runTrace ops ProcessManager.new).2 ∧
    (runTrace ops ProcessManager.new).2.Nodup :=
  ⟨(trace_pids ops ProcessManager.new).2.2,
   List.Pairwise.imp (fun h => Nat.ne_of_lt h) (trace_pids ops ProcessManager.new).2.2⟩

/-! ### Round-robin fairness (C2) -/

theorem create_queue (s : ProcessManager) (e sz : Nat) :
    (s.create_process e sz).2.ready_queue = s.ready_queue ++ [s.next_pid] := rfl

theorem create_current (s : ProcessManager) (e sz : Nat) :
    (s.create_process e sz).2.current_pid = s.current_pid := rfl

theorem create_next (s : ProcessManager) (e sz : Nat) :
    (s.create_process e sz).2.next_pid = s.next_pid + 1 := rfl

theorem create_processes (s : ProcessManager) (e sz : Nat) :
    (s.create_process e sz).2.processes = s.processes ++ [createdProcess s e sz] := rfl

theorem stateOf_create_lt (s : ProcessManager) (e sz y : Nat) (hy : y < s.next_pid) :
    stateOf (s.create_process e sz).2 y = stateOf s y := by
  unfold stateOf
  rw [create_processes, List.find?_append]
  have h1 : List.find? (fun p => p.pid == y) [createdProcess s e sz] = none := by
    refine List.find?_eq_none.mpr ?_
    intro p hp
    simp only [List.mem_singleton] at hp
    subst hp
    simp only [created_pid, beq_iff_eq]
    omega
  rw [h1]
  cases s.processes.find? (fun p => p.pid == y) <;> rfl

theorem stateOf_create_self (s : ProcessManager) (e sz : Nat)
    (hb : ∀ p ∈ s.processes, p.pid < s.next_pid) :
    stateOf (s.create_process e sz).2 s.next_pid = some .Ready := by
  unfold stateOf
  rw [create_processes, List.find?_append]
  have h1 : List.find? (fun p => p.pid == s.next_pid) s.processes = none :=
    List.find?_eq_none.mpr (fun p hp => by simp; exact Nat.ne_of_lt (hb p hp))
  rw [h1]
  simp [List.find?, created_pid, created_state]

theorem createMany_facts (params : List (Nat × Nat)) :
    ∀ s : ProcessManager, (∀ p ∈ s.processes, p.pid < s.next_pid) →
      (createMany params s).ready_queue
          = s.ready_queue ++ List.range' s.next_pid params.length ∧
      (createMany params s).current_pid = s.current_pid ∧
      (createMany params s).next_pid = s.next_pid + params.length ∧
      (createMany params s).processes.map Process.pid
          = s.processes.map Process.pid ++ List.range' s.next_pid params.length ∧
      (∀ y, y < s.next_pid → stateOf (createMany params s) y = stateOf s y) ∧
      (∀ y ∈ List.range' s.next_pid params.length,
          stateOf (createMany params s) y = some .Ready) := by
  induction params with
  | nil =>
    intro s hb
    refine ⟨by simp [createMany], rfl, rfl, by simp [createMany], fun y _ => rfl, ?_⟩
    intro y hy
    simp at hy
  | cons pr params ih =>
    intro s hb
    have hstep : createMany (pr :: params) s
        = createMany params (s.create_process pr.1 pr.2).2 := rfl
    have hb1 : ∀ p ∈ (s.create_process pr.1 pr.2).2.processes,
        p.pid < (s.create_process pr.1 pr.2).2.next_pid := by
      intro p hp
      rw [create_processes] at hp
      rw [create_next]
      rcases List.mem_append.mp hp with h1 | h1
      · exact Nat.lt_succ_of_lt (hb p h1)
      · simp only [List.mem_singleton] at h1
        rw [h1, created_pid]
        exact Nat.lt_succ_self _
    obtain ⟨ihq, ihc, ihn, ihm, ihlt, ihnew⟩ := ih (s.create_process pr.1 pr.2).2 hb1
    have hrange : List.range' s.next_pid (params.length + 1)
        = s.next_pid :: List.range' (s.next_pid + 1) params.length := List.range'_succ _ _ _
    refine ⟨?_, ?_, ?_, ?_, ?_, ?_⟩
    · rw [hstep, ihq, create_queue, create_next]
      simp [hrange]
    · rw [hstep, ihc, create_current]
    · rw [hstep, ihn, create_next]
      simp [Nat.add_assoc, Nat.add_comm 1 params.length]
    · rw [hstep, ihm, create_processes, create_next]
      simp [hrange, created_pid]
    · intro y hy
      rw [hstep, ihlt y (by rw [create_next]; omega), stateOf_create_lt s pr.1 pr.2 y hy]
    · intro y hy
      rw [List.length_cons, hrange] at hy
      rcases List.mem_cons.mp hy with rfl | hy
      · rw [hstep, ihlt s.next_pid (by rw [create_next]; omega)]
        exact stateOf_create_self s pr.1 pr.2 hb
      · rw [hstep]
        exact ihnew y (by rw [create_next]; exact hy)

/-- Invariant driving the round-robin argument: the queue is `q`, process `c`
is current and Running, everything in the queue is Ready, and `q ++ [c]` has
no duplicates. -/
def GoodRR (s : ProcessManager) (q : List Nat) (c : Nat) : Prop :=
  s.ready_queue = q ∧ s.current_pid = some c ∧ stateOf s c = some .Running ∧
  (∀ x ∈ q, stateOf s x = some .Ready) ∧ (q ++ [c]).Nodup

theorem demote_current_none (s : ProcessManager) (hc : s.current_pid = none) :
    s.demote_current = s := by
  unfold ProcessManager.demote_current
  rw [hc]

theorem demote_current_running (s : ProcessManager) (c : Nat) (cp : Process)
    (hc : s.current_pid = some c)
    (hf : s.processes.find? (fun p => p.pid == c) = some cp)
    (hcp : cp.state = .Running) :
    s.demote_current = { s with
      processes := ProcessManager.updFirst c (fun p => { p with state := .Ready }) s.processes,
      ready_queue := s.ready_queue ++ [c] } := by
  unfold ProcessManager.demote_current
  rw [hc]
  dsimp only
  rw [hf]
  dsimp only
  rw [if_pos hcp]

theorem schedule_good_step (s : ProcessManager) (x : Nat) (q : List Nat) (c : Nat)
    (h : GoodRR s (x :: q) c) :
    (s.schedule).1 = some x ∧ GoodRR (s.schedule).2 (q ++ [c]) x := by
  obtain ⟨hq, hc, hrc, hready, hnd⟩ := h
  have hnd' : (x :: (q ++ [c])).Nodup := by simpa using hnd
  have hxq : x ∉ q ++ [c] := (List.nodup_cons.mp hnd').1
  have hxc : x ≠ c := fun he => hxq (by simp [he])
  have hxq' : x ∉ q := fun he => hxq (by simp [he])
  have hcq : c ∉ q := by
    have h2 := (List.nodup_cons.mp hnd').2
    intro hcq
    rcases List.nodup_append.mp h2 with ⟨-, -, hdisj⟩
    exact hdisj hcq (by simp)
  obtain ⟨cp, hfc, hcp⟩ : ∃ cp, s.processes.find? (fun p => p.pid == c) = some cp
      ∧ cp.state = .Running := by
    rcases Option.map_eq_some'.mp hrc with ⟨cp, h1, h2⟩
    exact ⟨cp, h1, h2⟩
  obtain ⟨px, hfx, hpx⟩ : ∃ px, s.processes.find? (fun p => p.pid == x) = some px
      ∧ px.state = .Ready := by
    rcases Option.map_eq_some'.mp (hready x (List.mem_cons_self x q)) with ⟨px, h1, h2⟩
    exact ⟨px, h1, h2⟩
  have hdem : ({ s with ready_queue := q } : ProcessManager).demote_current
      = { s with
          processes := ProcessManager.updFirst c
            (fun p => { p with state := .Ready }) s.processes,
          ready_queue := q ++ [c] } :=
    demote_current_running { s with ready_queue := q } c cp hc hfc hcp
  have hfx2 : (ProcessManager.updFirst c (fun p => { p with state := .Ready })
      s.processes).find? (fun p => p.pid == x) = some px := by
    rw [ProcessManager.find?_updFirst_ne (f := fun p => { p with state := .Ready })
      (fun p => rfl) hxc]
    exact hfx
  have hsch : s.schedule = (some x,
      { s with
        processes := ProcessManager.updFirst x (fun p => { p with state := .Running })
          (ProcessManager.updFirst c (fun p => { p with state := .Ready }) s.processes),
        ready_queue := q ++ [c],
        current_pid := some x }) := by
    unfold ProcessManager.schedule
    rw [hq]
    dsimp only
    rw [hdem]
    dsimp only
    rw [hfx2]
  rw [hsch]
  refine ⟨rfl, rfl, rfl, ?_, ?_, ?_⟩
  · unfold stateOf
    dsimp only
    rw [ProcessManager.find?_updFirst_same (f := fun p => { p with state := .Running })
      (fun p => rfl), hfx2]
    rfl
  · intro y hy
    have hyx : y ≠ x := fun he => hxq (he ▸ hy)
    unfold stateOf
    dsimp only
    rw [ProcessManager.find?_updFirst_ne (f := fun p => { p with state := .Running })
      (fun p => rfl) hyx]
    rcases List.mem_append.mp hy with hyq | hyc
    · have hyc : y ≠ c := fun he => hcq (he ▸ hyq)
      rw [ProcessManager.find?_updFirst_ne (f := fun p => { p with state := .Ready })
        (fun p => rfl) hyc]
      exact hready y (List.mem_cons_of_mem x hyq)
    · simp only [List.mem_singleton] at hyc
      subst hyc
      rw [ProcessManager.find?_updFirst_same (f := fun p => { p with state := .Ready })
        (fun p => rfl), hfc]
      rfl
  · exact (@List.perm_append_comm _ [x] (q ++ [c])).nodup hnd'

theorem schedSeq_good : ∀ (k : Nat) (q : List Nat) (c : Nat) (s : ProcessManager),
    GoodRR s q c → k ≤ q.length + 1 →
    (schedSeq k s).1 = ((q ++ [c]).take k).map some := by
  intro k
  induction k with
  | zero => intro q c s _ _; rfl
  | succ k ih =>
    intro q c s h hk
    cases q with
    | nil =>
      have hk0 : k = 0 := by simpa using hk
      subst hk0
      obtain ⟨hq, hc, _, _, _⟩ := h
      have hsch : s.schedule = (some c, s) := by
        unfold ProcessManager.schedule
        rw [hq]
        dsimp only
        rw [hc]
      simp [schedSeq, hsch]
    | cons x q' =>
      obtain ⟨hout, hgood⟩ := schedule_good_step s x q' c h
      have hk' : k ≤ (q' ++ [c]).length + 1 := by
        simp only [List.length_append, List.length_cons] at hk ⊢
        omega
      have ihres := ih (q' ++ [c]) x (s.schedule).2 hgood hk'
      show ((s.schedule).1 :: (schedSeq k (s.schedule).2).1) = _
      rw [hout, ihres, @List.take_append_of_le_length _ _ [x] _ (by
        simp only [List.length_append, List.length_cons] at hk ⊢
        omega)]
      rfl

theorem first_schedule_good (params : List (Nat × Nat)) (hne : params ≠ []) :
    ((createMany params ProcessManager.new).schedule).1 = some 1 ∧
    GoodRR ((createMany params ProcessManager.new).schedule).2
      (List.range' 2 (params.length - 1)) 1 := by
  obtain ⟨N', hN⟩ : ∃ N', params.length = N' + 1 := by
    cases params with
    | nil => exact absurd rfl hne
    | cons a l => exact ⟨l.length, rfl⟩
  obtain ⟨hq0, hc0, hn0, hm0, hlt0, hnew0⟩ :=
    createMany_facts params ProcessManager.new
      (by intro p hp; exact absurd hp (List.not_mem_nil p))
  have hNN : params.length - 1 = N' := by omega
  rw [hNN]
  have hq : (createMany params ProcessManager.new).ready_queue
      = 1 :: List.range' 2 N' := by
    rw [hq0, hN]
    simp [ProcessManager.new, List.range'_succ]
  have hcur : (createMany params ProcessManager.new).current_pid = none := by
    rw [hc0]
    rfl
  have hst1 : stateOf (createMany params ProcessManager.new) 1 = some .Ready := by
    refine hnew0 1 ?_
    show (1 : Nat) ∈ List.range' 1 params.length
    rw [hN]
    exact List.mem_range'_1.mpr ⟨le_refl 1, by omega⟩
  obtain ⟨p1, hfp1, hp1⟩ : ∃ p1,
      (createMany params ProcessManager.new).processes.find? (fun p => p.pid == 1)
        = some p1 ∧ p1.state = .Ready := by
    rcases Option.map_eq_some'.mp hst1 with ⟨p1, h1, h2⟩
    exact ⟨p1, h1, h2⟩
  have hdem : ({ createMany params ProcessManager.new with
      ready_queue := List.range' 2 N' } : ProcessManager).demote_current
      = { createMany params ProcessManager.new with ready_queue := List.range' 2 N' } :=
    demote_current_none _ hcur
  have hsch : (createMany params ProcessManager.new).schedule = (some 1,
      { createMany params ProcessManager.new with
        processes := ProcessManager.updFirst 1 (fun p => { p with state := .Running })
          (createMany params ProcessManager.new).processes,
        ready_queue := List.range' 2 N',
        current_pid := some 1 }) := by
    unfold ProcessManager.schedule
    rw [hq]
    dsimp only
    rw [hdem]
    dsimp only
    rw [hfp1]
  rw [hsch]
  refine ⟨rfl, rfl, rfl, ?_, ?_, ?_⟩
  · unfold stateOf
    dsimp only
    rw [ProcessManager.find?_updFirst_same (f := fun p => { p with state := .Running })
      (fun p => rfl), hfp1]
    rfl
  · intro y hy
    obtain ⟨hy2, hy3⟩ := List.mem_range'_1.mp hy
    have hyne : y ≠ 1 := by omega
    unfold stateOf
    dsimp only
    rw [ProcessManager.find?_updFirst_ne (f := fun p => { p with state := .Running })
      (fun p => rfl) hyne]
    refine hnew0 y ?_
    show y ∈ List.range' 1 params.length
    rw [hN]
    exact List.mem_range'_1.mpr ⟨by omega, by omega⟩
  · have h1 : (1 :: List.range' 2 N').Nodup := by
      have h2 := List.nodup_range' 1 (N' + 1) 1
      rwa [List.range'_succ] at h2
    exact (@List.perm_append_comm _ [1] (List.range' 2 N')).nodup
      (by simpa using h1)

/-- C2: after creating N processes (for any N ≥ 1 and any entry points and
stack sizes) and calling `schedule` once, the next N `schedule` calls return
the pids `2, 3, ..., N, 1` — each created process id exactly once before any
repeats, with the demoted current process appended behind all waiting
processes. -/
theorem c2_scheduler_fairness (params : List (Nat × Nat)) (hne : params ≠ []) :
    (schedSeq params.length ((createMany params ProcessManager.new).schedule).2).1
        = (List.range' 2 (params.length - 1) ++ [1]).map some ∧
    (createMany params ProcessManager.new).processes.map Process.pid
        = List.range' 1 params.length ∧
    ((schedSeq params.length ((createMany params ProcessManager.new).schedule).2).1).Perm
        (((createMany params ProcessManager.new).processes.map Process.pid).map some) := by
  obtain ⟨N', hN⟩ : ∃ N', params.length = N' + 1 := by
    cases params with
    | nil => exact absurd rfl hne
    | cons a l => exact ⟨l.length, rfl⟩
  obtain ⟨hfirst, hgood⟩ := first_schedule_good params hne
  have hlen : params.length ≤ (List.range' 2 (params.length - 1)).length + 1 := by
    simp [hN]
  have houts := schedSeq_good params.length (List.range' 2 (params.length - 1)) 1
    ((createMany params ProcessManager.new).schedule).2 hgood hlen
  have htake : (List.range' 2 (params.length - 1) ++ [1]).take params.length
      = List.range' 2 (params.length - 1) ++ [1] :=
    List.take_of_length_le (by simp [hN])
  have hmap : (createMany params ProcessManager.new).processes.map Process.pid
      = List.range' 1 params.length := by
    obtain ⟨-, -, -, hm0, -, -⟩ :=
      createMany_facts params ProcessManager.new
        (by intro p hp; exact absurd hp (List.not_mem_nil p))
    rw [hm0]
    rfl
  refine ⟨by rw [houts, htake], hmap, ?_⟩
  rw [houts, htake, hmap]
  refine List.Perm.map some ?_
  rw [hN]
  simp only [Nat.add_sub_cancel]
  have h2 : List.range' 1 (N' + 1) = 1 :: List.range' 2 N' := List.range'_succ _ _ _
  rw [h2]
  exact @List.perm_append_comm _ (List.range' 2 N') [1]

theorem c2_scheduler_fairness_witness :
    (schedSeq 2 ((createMany [(0, 16), (7, 32)] ProcessManager.new).schedule).2).1
      = [some 2, some 1] :=
  (c2_scheduler_fairness [(0, 16), (7, 32)] (by decide)).1

/-! ## File descriptor table and in-memory files (src/fs.rs) -/

/-- Pointwise update of a function map (the embedding of `BTreeMap`
insert/remove). -/
def upd {κ α : Type} [DecidableEq κ] (m : κ → Option α) (k : κ) (v : Option α) :
    κ → Option α :=
  fun k' => if k' = k then v else m k'

inductive DeviceType where
  | Stdin
  | Stdout
  | Stderr
  | Null
deriving DecidableEq

inductive PipeEnd where
  | Read (pipe_id : Nat)
  | Write (pipe_id : Nat)
deriving DecidableEq

inductive FileType where
  | Regular (path : String)
  | Pipe (pend : PipeEnd)
  | Device (dev : DeviceType)
deriving DecidableEq

/-- Open flags are carried as the 32-bit pattern of the `i32` flag word. -/
structure FileDescriptor where
  fd : Int
  file_type : FileType
  offset : Nat
  flags : Nat
deriving DecidableEq

def O_WRONLY : Nat := 1
def O_RDWR : Nat := 2
def O_CREAT : Nat := 64
def O_EXCL : Nat := 128
def O_TRUNC : Nat := 512
def O_APPEND : Nat := 1024
def O_NONBLOCK : Nat := 2048

/-- The union of all defined flag bits; `OpenFlags::from_bits` succeeds
exactly when the argument has no bits outside this mask. -/
def FLAGS_MASK : Nat :=
  O_WRONLY ||| O_RDWR ||| O_CREAT ||| O_EXCL ||| O_TRUNC ||| O_APPEND ||| O_NONBLOCK

structure FileSystem where
  open_files : Int → Option FileDescriptor
  next_fd : Int
  files : String → Option (List Nat)

namespace FileSystem

def new : FileSystem :=
  { open_files := fun fd =>
      if fd = 0 then some ⟨0, .Device .Stdin, 0, 0⟩
      else if fd = 1 then some ⟨1, .Device .Stdout, 0, O_WRONLY⟩
      else if fd = 2 then some ⟨2, .Device .Stderr, 0, O_WRONLY⟩
      else none,
    next_fd := 3,
    files := fun _ => none }

/-- `FileSystem::open` (named `openFile` because `open` is a Lean keyword).
Errors also return the (possibly mutated) table state, since the source
mutates `next_fd` before the existence check. -/
def openFile (fs : FileSystem) (path : String) (flags : Nat) (mode : Nat) :
    Except String Int × FileSystem :=
  if ¬(flags &&& FLAGS_MASK = flags) then (.error "Invalid flags", fs)
  else
    let fd := fs.next_fd
    let fs : FileSystem := { fs with next_fd := fs.next_fd + 1 }
    if path = "/dev/null" then
      (.ok fd, { fs with open_files := upd fs.open_files fd (some ⟨fd, .Device .Null, 0, flags⟩) })
    else
      let fs : FileSystem :=
        if flags &&& O_CREAT ≠ 0 ∧ fs.files path = none then
          { fs with files := upd fs.files path (some []) }
        else fs
      if fs.files path = none ∧ flags &&& O_CREAT = 0 then
        (.error "File not found", fs)
      else
        (.ok fd, { fs with open_files := upd fs.open_files fd (some ⟨fd, .Regular path, 0, flags⟩) })

def close (fs : FileSystem) (fd : Int) : Except String FileSystem :=
  match fs.open_files fd with
  | none => .error "Invalid file descriptor"
  | some _ => .ok { fs with open_files := upd fs.open_files fd none }

/-- Result of `FileSystem::read`: the bytes copied out, an error, or a
kernel panic (an uncatchable abort). -/
inductive RRes where
  | ok (bytes : List Nat)
  | error (e : String)
  | panicked
deriving DecidableEq

/-- `FileSystem::read`.  The regular-file branch computes
`min(buf.len(), file_data.len() - descriptor.offset)` with usize
subtraction: when the cursor is beyond the end of the file the subtraction
wraps, and the huge byte count then makes the slice
`file_data[offset..offset + bytes_to_read]` out of bounds — a panic —
unless the destination buffer is empty. -/
def read (fs : FileSystem) (ipc : IPCManager) (fd : Int) (bufLen : Nat) :
    RRes × FileSystem × IPCManager :=
  match fs.open_files fd with
  | none => (.error "Invalid file descriptor", fs, ipc)
  | some descriptor =>
    match descriptor.file_type with
    | .Regular path =>
      match fs.files path with
      | none => (.error "File not found", fs, ipc)
      | some file_data =>
        if descriptor.offset ≤ file_data.length then
          let bytes_to_read := min bufLen (file_data.length - descriptor.offset)
          if bytes_to_read = 0 then (.ok [], fs, ipc)
          else
            let d2 : FileDescriptor :=
              { descriptor with offset := descriptor.offset + bytes_to_read }
            (.ok ((file_data.drop descriptor.offset).take bytes_to_read),
             { fs with open_files := upd fs.open_files fd (some d2) }, ipc)
        else
          if bufLen = 0 then (.ok [], fs, ipc) else (.panicked, fs, ipc)
    | .Device .Stdin => (.ok [], fs, ipc)
    | .Device .Null => (.ok [], fs, ipc)
    | .Pipe (.Read pipe_id) =>
      match ipc.read_pipe pipe_id bufLen with
      | .ok (bs, ipc') => (.ok bs, fs, ipc')
      | .error e => (.error e, fs, ipc)
    | _ => (.error "Cannot read from this file descriptor", fs, ipc)

/-- `FileSystem::write`.  Stdout/Stderr forward to the UART, which holds no
modelled state. -/
def write (fs : FileSystem) (ipc : IPCManager) (fd : Int) (buf : List Nat) :
    Except String Nat × FileSystem × IPCManager :=
  match fs.open_files fd with
  | none => (.error "Invalid file descriptor", fs, ipc)
  | some descriptor =>
    match descriptor.file_type with
    | .Regular path =>
      match fs.files path with
      | none => (.error "File not found", fs, ipc)
      | some file_data =>
        if descriptor.flags &&& O_APPEND ≠ 0 then
          (.ok buf.length,
           { fs with files := upd fs.files path (some (file_data ++ buf)) }, ipc)
        else
          let file_data :=
            if descriptor.offset + buf.length > file_data.length then
              file_data ++ List.replicate (descriptor.offset + buf.length - file_data.length) 0
            else file_data
          (.ok buf.length,
           { fs with
             files := upd fs.files path
               (some (file_data.take descriptor.offset ++ buf
                 ++ file_data.drop (descriptor.offset + buf.length))),
             open_files := upd fs.open_files fd
               (some { descriptor with offset := descriptor.offset + buf.length }) },
           ipc)
    | .Device .Stdout | .Device .Stderr => (.ok buf.length, fs, ipc)
    | .Device .Null => (.ok buf.length, fs, ipc)
    | .Pipe (.Write pipe_id) =>
      match ipc.write_pipe pipe_id buf with
      | .ok (n, ipc') => (.ok n, fs, ipc')
      | .error e => (.error e, fs, ipc)
    | _ => (.error "Cannot write to this file descriptor", fs, ipc)

def duplicate_fd (fs : FileSystem) (fd : Int) : Except String Int × FileSystem :=
  match fs.open_files fd with
  | none => (.error "Invalid file descriptor", fs)
  | some descriptor =>
    let new_fd := fs.next_fd
    (.ok new_fd,
     { fs with next_fd := fs.next_fd + 1,
               open_files := upd fs.open_files new_fd (some { descriptor with fd := new_fd }) })

def duplicate_fd_to (fs : FileSystem) (oldfd newfd : Int) : Except String Int × FileSystem :=
  match fs.open_files oldfd with
  | none => (.error "Invalid file descriptor", fs)
  | some descriptor =>
    (.ok newfd,
     { fs with open_files := upd fs.open_files newfd (some { descriptor with fd := newfd }) })

/-- `create_pipe_fds`; the source returns `Result` but always succeeds. -/
def create_pipe_fds (fs : FileSystem) (pipe_id : Nat) : (Int × Int) × FileSystem :=
  let read_fd := fs.next_fd
  let write_fd := fs.next_fd + 1
  ((read_fd, write_fd),
   { fs with
     next_fd := fs.next_fd + 2,
     open_files :=
       upd (upd fs.open_files read_fd (some ⟨read_fd, .Pipe (.Read pipe_id), 0, 0⟩))
         write_fd (some ⟨write_fd, .Pipe (.Write pipe_id), 0, O_WRONLY⟩) })

def create_file (fs : FileSystem) (path : String) : FileSystem :=
  { fs with files := upd fs.files path (some []) }

def remove_file (fs : FileSystem) (path : String) : Except String FileSystem :=
  match fs.files path with
  | some _ => .ok { fs with files := upd fs.files path none }
  | none => .error "File not found"

def move_file (fs : FileSystem) (source dest : String) : Except String FileSystem :=
  match fs.files source with
  | none => .error "Source file not found"
  | some source_data =>
    .ok { fs with files := upd (upd fs.files source none) dest (some source_data) }

end FileSystem

/-- `IPCManager::create_pipe`: registers a fresh pipe with one reader and one
writer and asks the fd table for two descriptors. -/
def create_pipe (ipc : IPCManager) (fs : FileSystem) :
    Except String (Int × Int) × IPCManager × FileSystem :=
  let pipe_id := ipc.next_pipe_id
  let ipc : IPCManager := { ipc with next_pipe_id := ipc.next_pipe_id + 1 }
  let pipe := ((Pipe.new pipe_id).add_reader).add_writer
  let ipc : IPCManager :=
    { ipc with pipes := fun k => if k = pipe_id then some pipe else ipc.pipes k }
  let r := fs.create_pipe_fds pipe_id
  (.ok r.1, ipc, r.2)

/-! ## Page allocator (src/memory.rs) and the syscall dispatcher (src/syscall.rs) -/

/-- Models the `static mut NEXT_ADDR` bump pointer in `allocate_pages`. -/
structure MemoryManager where
  pages_next_addr : Nat
deriving DecidableEq

def allocate_pages (m : MemoryManager) (size : Nat) : Nat × MemoryManager :=
  let pages := (size + 4095) / 4096
  (m.pages_next_addr, { pages_next_addr := m.pages_next_addr + pages * 4096 })

def deallocate_pages (m : MemoryManager) (addr size : Nat) : MemoryManager := m

/-- The kernel state touched by the syscall dispatcher: process table, fd
table, pipe registry and page allocator. -/
structure KState where
  pm : ProcessManager
  fs : FileSystem
  ipc : IPCManager
  mm : MemoryManager

/-- Initial kernel state: the statically initialized tables. -/
def KState.init : KState :=
  { pm := ProcessManager.new, fs := FileSystem.new, ipc := IPCManager.new,
    mm := { pages_next_addr := 0x60000000 } }

/-- A snapshot view of user memory, standing in for the raw pointers the
source dereferences unchecked: `mem` is the byte at each address, and
`cpath` the NUL-terminated string starting at each address (the source
scans byte-by-byte for the NUL terminator). -/
structure MemView where
  mem : Nat → Nat
  cpath : Nat → String

/-- Rust `as i32` on a `u64` argument word. -/
def toI32 (a : Nat) : Int :=
  let m : Nat := a % 2 ^ 32
  if m < 2 ^ 31 then (m : Int) else (m : Int) - 2 ^ 32

/-- Rust `as u64` on an `i32` value (sign-extending). -/
def u64OfI32 (i : Int) : Nat := (i % 2 ^ 64).toNat

def UMAX : Nat := 2 ^ 64 - 1

def SYS_READ : Nat := 0
def SYS_WRITE : Nat := 1
def SYS_OPEN : Nat := 2
def SYS_CLOSE : Nat := 3
def SYS_EXIT : Nat := 60
def SYS_FORK : Nat := 57
def SYS_EXECVE : Nat := 59
def SYS_MMAP : Nat := 9
def SYS_MUNMAP : Nat := 11
def SYS_GETPID : Nat := 39
def SYS_PIPE : Nat := 22
def SYS_DUP : Nat := 32
def SYS_DUP2 : Nat := 33

/-- `syscall_handler`.  The first component is the returned word; `none`
means the call does not return (`sys_exit`'s halt loop, or a panic).
Writebacks into user memory (read buffers, the pipe fd pair) fall outside
the modelled kernel state. -/
def syscall_handler (num a1 a2 a3 a4 a5 a6 : Nat) (mv : MemView) (s : KState) :
    Option Nat × KState :=
  if num = SYS_READ then
    let r := s.fs.read s.ipc (toI32 a1) a3
    match r.1 with
    | .ok bytes => (some bytes.length, { s with fs := r.2.1, ipc := r.2.2 })
    | .error _ => (some UMAX, { s with fs := r.2.1, ipc := r.2.2 })
    | .panicked => (none, { s with fs := r.2.1, ipc := r.2.2 })
  else if num = SYS_WRITE then
    let data := (List.range a3).map (fun i => mv.mem (a2 + i))
    let r := s.fs.write s.ipc (toI32 a1) data
    match r.1 with
    | .ok n => (some n, { s with fs := r.2.1, ipc := r.2.2 })
    | .error _ => (some UMAX, { s with fs := r.2.1, ipc := r.2.2 })
  else if num = SYS_OPEN then
    let r := s.fs.openFile (mv.cpath a1) (a2 % 2 ^ 32) (a3 % 2 ^ 32)
    match r.1 with
    | .ok fd => (some (u64OfI32 fd), { s with fs := r.2 })
    | .error _ => (some UMAX, { s with fs := r.2 })
  else if num = SYS_CLOSE then
    match s.fs.close (toI32 a1) with
    | .ok fs' => (some 0, { s with fs := fs' })
    | .error _ => (some UMAX, s)
  else if num = SYS_EXIT then
    match s.pm.current_pid with
    | some c =>
      match s.pm.terminate_process c with
      | .ok pm' => (none, { s with pm := (pm'.schedule).2 })
      | .error _ => (none, s)
    | none => (none, s)
  else if num = SYS_FORK then (some 0, s)
  else if num = SYS_EXECVE then
    match s.pm.sys_exec a1 with
    | .ok pm' => (some 0, { s with pm := pm' })
    | .error _ => (some UMAX, s)
  else if num = SYS_GETPID then (some (s.pm.current_pid.getD 0), s)
  else if num = SYS_PIPE then
    let r := create_pipe s.ipc s.fs
    match r.1 with
    | .ok _ => (some 0, { s with ipc := r.2.1, fs := r.2.2 })
    | .error _ => (some UMAX, { s with ipc := r.2.1, fs := r.2.2 })
  else if num = SYS_DUP then
    let r := s.fs.duplicate_fd (toI32 a1)
    match r.1 with
    | .ok fd => (some (u64OfI32 fd), { s with fs := r.2 })
    | .error _ => (some UMAX, { s with fs := r.2 })
  else if num = SYS_DUP2 then
    let r := s.fs.duplicate_fd_to (toI32 a1) (toI32 a2)
    match r.1 with
    | .ok fd => (some (u64OfI32 fd), { s with fs := r.2 })
    | .error _ => (some UMAX, { s with fs := r.2 })
  else if num = SYS_MMAP then
    let r := allocate_pages s.mm a2
    (some r.1, { s with mm := r.2 })
  else if num = SYS_MUNMAP then (some 0, { s with mm := deallocate_pages s.mm a1 a2 })
  else (some UMAX, s)

/-- `fs::close` as seen from the rest of the kernel: only the fd table is
touched. -/
def close_fd (s : KState) (fd : Int) : Except String KState :=
  match s.fs.close fd with
  | .ok fs' => .ok { s with fs := fs' }
  | .error e => .error e

/-! ### Claim theorems about the fd table and the dispatcher -/

/-- The C3 scenario: create `/x` write-only, write five bytes (cursor now 5),
remove the file, re-create it empty, leaving descriptor 3 with its cursor
beyond the new end of file. -/
def c3State : FileSystem :=
  let f1 := (FileSystem.new.openFile "/x" 65 0).2
  let f2 := (f1.write IPCManager.new 3 [1, 2, 3, 4, 5]).2.1
  let f3 := match f2.remove_file "/x" with | .ok f => f | .error _ => f2
  f3.create_file "/x"

/-- C3 (code bug): reading one byte through a descriptor whose cursor lies
beyond the current length of the backing file makes the kernel panic — the
usize subtraction `file_data.len() - descriptor.offset` wraps and the slice
index goes out of bounds — instead of returning 0 (end-of-file) as the spec
requires for every recoverable condition. -/
theorem c3_read_panics_past_eof :
    (c3State.read IPCManager.new 3 1).1 = FileSystem.RRes.panicked := by
  rfl

/-- C7: for every syscall number outside the recognized set, the dispatcher
returns the all-ones sentinel `u64::MAX` and leaves the process table, the
fd table, the pipe registry and the page allocator exactly unchanged,
whatever the six argument words and the user memory are. -/
theorem c7_unknown_syscall (num a1 a2 a3 a4 a5 a6 : Nat) (mv : MemView) (s : KState)
    (h : num ∉ [SYS_READ, SYS_WRITE, SYS_OPEN, SYS_CLOSE, SYS_EXIT, SYS_FORK,
      SYS_EXECVE, SYS_GETPID, SYS_PIPE, SYS_DUP, SYS_DUP2, SYS_MMAP, SYS_MUNMAP]) :
    syscall_handler num a1 a2 a3 a4 a5 a6 mv s = (some UMAX, s) := by
  simp only [List.mem_cons, List.not_mem_nil, or_false, not_or] at h
  obtain ⟨h0, h1, h2, h3, h4, h5, h6, h7, h8, h9, h10, h11, h12⟩ := h
  simp [syscall_handler, h0, h1, h2, h3, h4, h5, h6, h7, h8, h9, h10, h11, h12]

theorem c7_unknown_syscall_witness :
    syscall_handler 9999 1 2 3 4 5 6 ⟨fun _ => 0, fun _ => ""⟩ KState.init
      = (some UMAX, KState.init) :=
  c7_unknown_syscall 9999 1 2 3 4 5 6 ⟨fun _ => 0, fun _ => ""⟩ KState.init (by decide)

/-- C9: closing a descriptor bound to a pipe endpoint removes only that
descriptor-table entry; the pipe registry (reader/writer counts, closed
flags, registry membership), the process table, the page allocator, the
backing files and the descriptor counter are untouched. -/
theorem c9_close_pipe_fd_frame (s : KState) (fd : Int) (d : FileDescriptor)
    (pend : PipeEnd) (hfd : s.fs.open_files fd = some d)
    (hp : d.file_type = .Pipe pend) :
    ∃ s', close_fd s fd = .ok s' ∧
      s'.ipc = s.ipc ∧ s'.pm = s.pm ∧ s'.mm = s.mm ∧
      s'.fs.open_files fd = none ∧
      (∀ k, k ≠ fd → s'.fs.open_files k = s.fs.open_files k) ∧
      s'.fs.files = s.fs.files ∧ s'.fs.next_fd = s.fs.next_fd := by
  refine ⟨{ s with fs := { s.fs with open_files := upd s.fs.open_files fd none } },
    ?_, rfl, rfl, rfl, ?_, ?_, rfl, rfl⟩
  · unfold close_fd FileSystem.close
    rw [hfd]
  · simp [upd]
  · intro k hk
    simp [upd, hk]

def c9ExampleState : KState :=
  { KState.init with fs := (FileSystem.new.create_pipe_fds 1).2 }

theorem c9_close_pipe_fd_frame_witness :
    ∃ s', close_fd c9ExampleState 3 = .ok s' ∧
      s'.ipc = c9ExampleState.ipc ∧ s'.pm = c9ExampleState.pm ∧ s'.mm = c9ExampleState.mm ∧
      s'.fs.open_files 3 = none ∧
      (∀ k, k ≠ 3 → s'.fs.open_files k = c9ExampleState.fs.open_files k) ∧
      s'.fs.files = c9ExampleState.fs.files ∧
      s'.fs.next_fd = c9ExampleState.fs.next_fd :=
  c9_close_pipe_fd_frame c9ExampleState 3 ⟨3, .Pipe (.Read 1), 0, 0⟩ (.Read 1) rfl rfl

/-- C10: `open` parses the flag bits first — unrecognized flag bits fail
without touching anything — but allocates (and consumes) the next descriptor
number before the existence check, so a not-found failure (file absent,
create flag unset, not a device path) leaves the open-file table and the
backing files unchanged while the descriptor counter has still advanced by
one; every successful open returns exactly the pre-call counter value, so
numbers consumed by failed opens are skipped. -/
theorem c10_open_failure_counter (fs : FileSystem) (path : String) (flags mode : Nat) :
    (¬(flags &&& FLAGS_MASK = flags) →
      fs.openFile path flags mode = (.error "Invalid flags", fs)) ∧
    (flags &&& FLAGS_MASK = flags → path ≠ "/dev/null" → fs.files path = none →
      flags &&& O_CREAT = 0 →
      fs.openFile path flags mode
        = (.error "File not found", { fs with next_fd := fs.next_fd + 1 })) ∧
    (∀ fd, (fs.openFile path flags mode).1 = .ok fd → fd = fs.next_fd) := by
  refine ⟨fun hv => ?_, fun hv hdev hnone hcreat => ?_, fun fd hok => ?_⟩
  · simp [FileSystem.openFile, hv]
  · simp [FileSystem.openFile, hv, hdev, hnone, hcreat]
  · unfold FileSystem.openFile at hok
    split at hok
    · simp at hok
    · dsimp only at hok
      split at hok
      · dsimp only at hok
        injection hok with h
        exact h.symm
      · split at hok
        all_goals split at hok
        all_goals dsimp only at hok
        all_goals first
          | (injection hok with h; exact h.symm)
          | injection hok

theorem c10_open_failure_counter_witness :
    FileSystem.new.openFile "/tmp/x" 4 0 = (.error "Invalid flags", FileSystem.new) ∧
    FileSystem.new.openFile "/tmp/x" 1 0
      = (.error "File not found", { FileSystem.new with next_fd := 4 }) :=
  ⟨(c10_open_failure_counter FileSystem.new "/tmp/x" 4 0).1 (by decide),
   (c10_open_failure_counter FileSystem.new "/tmp/x" 1 0).2.1
     (by decide) (by decide) rfl (by decide)⟩

end RustOS
